import Mathlib

/-!
Shallow embedding of the YOLO output decoding engine of
`src/runtime/src/yolo_decoder.c` (and the NCNN loader's DFL helper in
`src/runtime/src/ncnn_loader.cpp`).

Modelling conventions:
* C `float` values are modelled as exact rationals (`ℚ`); `int`/`int64_t`
  values as `ℤ`.  Array reads are modelled by total functions `ℕ → ℚ`
  (the tensor buffer) so indexing mirrors the C pointer arithmetic.
* The transcendental `sigmoid`/`expf` functions cannot be represented
  exactly over `ℚ`; every definition that calls them takes the function
  as an explicit parameter (`sig`, resp. `fexp`), and theorems either
  quantify over it or assume only the properties of the real function
  that the claim needs.
* The C decoders write into a caller-supplied array of capacity
  `max_dets` and stop once it is full; this is modelled by `List.take`.
* `yolo_nms` sorts with `qsort`, which gives no guarantee for ties; the
  embedding uses the deterministic stable `List.insertionSort` on the
  same comparator (score descending), one admissible refinement of the
  unspecified tie order.
-/

/-- Embeds `yolo_detection_t` (corners format, score, class id). -/
structure Detection where
  x1 : ℚ
  y1 : ℚ
  x2 : ℚ
  y2 : ℚ
  score : ℚ
  class_id : ℤ
deriving DecidableEq, Repr

/-- Embeds `yolo_version_t`. -/
inductive YoloVersion where
  | auto
  | v4
  | v5
  | v8
  | v10
deriving DecidableEq, Repr

/-- Embeds `yolo_decode_config_t`. -/
structure YoloConfig where
  version : YoloVersion
  input_w : ℤ
  input_h : ℤ
  num_classes : ℤ
  conf_threshold : ℚ
  nms_threshold : ℚ
  max_detections : ℤ
deriving DecidableEq, Repr

/-- The C cast `(int)f` for a float `f`: truncation toward zero. -/
def truncQ (q : ℚ) : ℤ := q.num / (q.den : ℤ)

/-- Embeds `iou` from yolo_decoder.c: intersection over union of two
corner-format boxes, `0` when the union area is not positive. -/
def iou (a b : Detection) : ℚ :=
  let ix1 := max a.x1 b.x1
  let iy1 := max a.y1 b.y1
  let ix2 := min a.x2 b.x2
  let iy2 := min a.y2 b.y2
  let iw := max 0 (ix2 - ix1)
  let ih := max 0 (iy2 - iy1)
  let inter := iw * ih
  let area_a := (a.x2 - a.x1) * (a.y2 - a.y1)
  let area_b := (b.x2 - b.x1) * (b.y2 - b.y1)
  let uni := area_a + area_b - inter
  if 0 < uni then inter / uni else 0

/-- The comparator of `cmp_score_desc`: `a` sorts no later than `b`
when `a`'s score is at least `b`'s (descending by score). -/
def scoreGe (a b : Detection) : Prop := b.score ≤ a.score

instance : DecidableRel scoreGe := fun a b => inferInstanceAs (Decidable (b.score ≤ a.score))

instance : IsTotal Detection scoreGe := ⟨fun a b => le_total b.score a.score⟩

instance : IsTrans Detection scoreGe := ⟨fun _ _ _ h1 h2 => le_trans h2 h1⟩

/-- The `qsort(detections, count, sizeof(...), cmp_score_desc)` call,
modelled as a deterministic stable sort on the same comparator. -/
def sortDesc (l : List Detection) : List Detection := List.insertionSort scoreGe l

/-- The inner suppression test of `yolo_nms`: detection `e` is marked
suppressed by `d` when both have the same class and their IoU exceeds
the threshold. -/
def suppQ (t : ℚ) (d e : Detection) : Prop := e.class_id = d.class_id ∧ t < iou d e

instance (t : ℚ) (d e : Detection) : Decidable (suppQ t d e) :=
  inferInstanceAs (Decidable (e.class_id = d.class_id ∧ t < iou d e))

/-- One round of the inner suppression loop of `yolo_nms`: removes from
the tail every detection suppressed by the surviving head `d`. -/
def pruneList (t : ℚ) (d : Detection) : List Detection → List Detection
  | [] => []
  | e :: l => if suppQ t d e then pruneList t d l else e :: pruneList t d l

/-- The suppression-and-compaction phase of `yolo_nms` on the sorted
array, with fuel (the fuel is always instantiated with the list length,
which suffices because pruning only shortens the tail).  A head with
negative score is dropped (the C code marks suppressed entries with
score `-1` and skips them both as suppressors and in compaction); a
surviving head is kept and removes everything it suppresses from its
tail. -/
def greedy (t : ℚ) : ℕ → List Detection → List Detection
  | 0, _ => []
  | _ + 1, [] => []
  | fuel + 1, d :: rest =>
    if d.score < 0 then greedy t fuel rest
    else d :: greedy t fuel (pruneList t d rest)

/-- Embeds `yolo_nms`: sort by score descending, then greedy same-class
suppression, returning the surviving detections in sorted order. -/
def yolo_nms (dets : List Detection) (t : ℚ) : List Detection :=
  greedy t dets.length (sortDesc dets)

/-- Embeds `yolo_detect_version`: shape heuristics, in source order. -/
def yolo_detect_version (shape : List ℤ) (num_dims : ℕ) (num_classes : ℤ) : YoloVersion :=
  if num_dims < 2 then .auto
  else
    let dim1 := if 2 ≤ num_dims then shape.getD 1 0 else 0
    let dim2 := if 3 ≤ num_dims then shape.getD 2 0 else 0
    if dim1 = 300 ∧ dim2 = 6 then .v10
    else if dim2 = 8400 ∧ dim1 = 4 + num_classes then .v8
    else if dim1 = 25200 ∨ dim1 = 18900 ∨ dim1 = 6300 then .v5
    else if dim1 < 100 ∧ 1000 < dim2 then .v8
    else if 1000 < dim1 ∧ dim2 < 100 then .v5
    else if dim1 = 507 ∨ dim1 = 2028 ∨ dim1 = 8112 then .v4
    else .auto

/-- The `for (c = 1; c < num_classes; c++)` argmax loop shared by the
V4 and V8 decoders: starts from candidate class `0` with score `get 0`
and updates on a strictly greater score. -/
def bestClass (get : ℕ → ℚ) (nc : ℕ) : ℕ × ℚ :=
  (List.range (nc - 1)).foldl
    (fun acc c => if acc.2 < get (c + 1) then (c + 1, get (c + 1)) else acc)
    (0, get 0)

/-- The per-row body of `decode_yolov4` (yolo_decoder.c lines 75-128):
objectness test, class argmax, score test, normalized-or-pixel
heuristic, center-size to corners conversion. -/
def decodeRowV4 (sig : ℚ → ℚ) (cfg : YoloConfig) (box : ℕ → ℚ) (nc : ℕ) : Option Detection :=
  let obj0 := box 4
  let obj := if obj0 < 0 ∨ 1 < obj0 then sig obj0 else obj0
  if obj < cfg.conf_threshold then none
  else
    let best := bestClass (fun c => box (5 + c)) nc
    let bp0 := best.2
    let bp := if bp0 < 0 ∨ 1 < bp0 then sig bp0 else bp0
    let score := obj * bp
    if score < cfg.conf_threshold then none
    else
      let cx0 := box 0
      let cy0 := box 1
      let w0 := box 2
      let h0 := box 3
      let scaled := cx0 ≤ 1 ∧ cy0 ≤ 1 ∧ w0 ≤ 1 ∧ h0 ≤ 1
      let cx := if scaled then cx0 * cfg.input_w else cx0
      let cy := if scaled then cy0 * cfg.input_h else cy0
      let w := if scaled then w0 * cfg.input_w else w0
      let h := if scaled then h0 * cfg.input_h else h0
      some { x1 := cx - w * (1/2), y1 := cy - h * (1/2),
             x2 := cx + w * (1/2), y2 := cy + h * (1/2),
             score := score, class_id := (best.1 : ℤ) }

/-- Embeds `decode_yolov4`: 3-D pre-decoded `[1, num_boxes, 5+C]`
layout; `none` models the C return value `-1`. -/
def decode_yolov4 (sig : ℚ → ℚ) (output : ℕ → ℚ) (shape : List ℤ) (num_dims : ℕ)
    (cfg : YoloConfig) (max_dets : ℕ) : Option (List Detection) :=
  if num_dims < 3 then none
  else
    let num_boxes := (shape.getD 1 0).toNat
    let box_size := shape.getD 2 0
    let adjust := box_size < 5 + cfg.num_classes
    let nc := if adjust then box_size - 5 else cfg.num_classes
    if adjust ∧ nc ≤ 0 then none
    else
      some (((List.range num_boxes).filterMap (fun i =>
        decodeRowV4 sig cfg (fun j => output (i * box_size.toNat + j)) nc.toNat)).take max_dets)

/-- Embeds `decode_yolov5`, which the source implements as a direct
call to `decode_yolov4`. -/
def decode_yolov5 (sig : ℚ → ℚ) (output : ℕ → ℚ) (shape : List ℤ) (num_dims : ℕ)
    (cfg : YoloConfig) (max_dets : ℕ) : Option (List Detection) :=
  decode_yolov4 sig output shape num_dims cfg max_dets

/-- The per-box body of `decode_yolov8` (yolo_decoder.c lines 163-203):
class argmax over channels `4..4+nc`, conditional sigmoid, threshold
test, then the same box conversion as V4 on channels `0..3`.
`ch k` reads `output[k * num_boxes + i]` for the box at hand. -/
def decodeRowV8 (sig : ℚ → ℚ) (cfg : YoloConfig) (ch : ℕ → ℚ) (nc : ℕ) : Option Detection :=
  let best := bestClass (fun c => ch (4 + c)) nc
  let bs0 := best.2
  let bs := if bs0 < 0 ∨ 1 < bs0 then sig bs0 else bs0
  if bs < cfg.conf_threshold then none
  else
    let cx0 := ch 0
    let cy0 := ch 1
    let w0 := ch 2
    let h0 := ch 3
    let scaled := cx0 ≤ 1 ∧ cy0 ≤ 1 ∧ w0 ≤ 1 ∧ h0 ≤ 1
    let cx := if scaled then cx0 * cfg.input_w else cx0
    let cy := if scaled then cy0 * cfg.input_h else cy0
    let w := if scaled then w0 * cfg.input_w else w0
    let h := if scaled then h0 * cfg.input_h else h0
    some { x1 := cx - w * (1/2), y1 := cy - h * (1/2),
           x2 := cx + w * (1/2), y2 := cy + h * (1/2),
           score := bs, class_id := (best.1 : ℤ) }

/-- Embeds `decode_yolov8`: transposed `[1, channels, num_boxes]`
layout, no objectness, `num_classes = channels - 4` derived from the
shape alone. -/
def decode_yolov8 (sig : ℚ → ℚ) (output : ℕ → ℚ) (shape : List ℤ) (num_dims : ℕ)
    (cfg : YoloConfig) (max_dets : ℕ) : Option (List Detection) :=
  if num_dims < 3 then none
  else
    let channels := shape.getD 1 0
    let num_boxes := (shape.getD 2 0).toNat
    let nc := channels - 4
    if nc ≤ 0 then none
    else
      some (((List.range num_boxes).filterMap (fun i =>
        decodeRowV8 sig cfg (fun k => output (k * num_boxes + i)) nc.toNat)).take max_dets)

/-- Embeds `decode_yolov10`: `[1, num_boxes, 6]` rows
`[x1, y1, x2, y2, score, class_id]` copied through unchanged after the
confidence filter. -/
def decode_yolov10 (output : ℕ → ℚ) (shape : List ℤ) (num_dims : ℕ)
    (cfg : YoloConfig) (max_dets : ℕ) : Option (List Detection) :=
  if num_dims < 3 then none
  else
    let num_boxes := (shape.getD 1 0).toNat
    let box_size := shape.getD 2 0
    if box_size < 6 then none
    else
      some (((List.range num_boxes).filterMap (fun i =>
        let box := fun j => output (i * box_size.toNat + j)
        if box 4 < cfg.conf_threshold then none
        else some { x1 := box 0, y1 := box 1, x2 := box 2, y2 := box 3,
                    score := box 4, class_id := truncQ (box 5) })).take max_dets)

/-- The version actually used by `yolo_decode`: the configured one, or
the auto-detected one when the configuration says `Auto`. -/
def resolvedVersion (shape : List ℤ) (num_dims : ℕ) (cfg : YoloConfig) : YoloVersion :=
  if cfg.version = .auto then yolo_detect_version shape num_dims cfg.num_classes
  else cfg.version

/-- Embeds `yolo_decode`: resolve the version, dispatch (the `default`
switch arm falls back to `decode_yolov5`), return early on error or on
an empty candidate list, apply NMS unless the resolved version is V10,
and truncate to `max_detections`. -/
def yolo_decode (sig : ℚ → ℚ) (output : ℕ → ℚ) (shape : List ℤ) (num_dims : ℕ)
    (cfg : YoloConfig) (max_dets : ℤ) : Option (List Detection) :=
  if max_dets ≤ 0 then none
  else
    let version := resolvedVersion shape num_dims cfg
    let decoded :=
      match version with
      | .v4 => decode_yolov4 sig output shape num_dims cfg max_dets.toNat
      | .v5 => decode_yolov5 sig output shape num_dims cfg max_dets.toNat
      | .v8 => decode_yolov8 sig output shape num_dims cfg max_dets.toNat
      | .v10 => decode_yolov10 output shape num_dims cfg max_dets.toNat
      | .auto => decode_yolov5 sig output shape num_dims cfg max_dets.toNat
    match decoded with
    | none => none
    | some dets =>
      if dets.isEmpty then some []
      else
        let dets2 := if version ≠ .v10 then yolo_nms dets cfg.nms_threshold else dets
        some (if cfg.max_detections < (dets2.length : ℤ)
              then dets2.take cfg.max_detections.toNat else dets2)

/-- Embeds `dfl_decode` from ncnn_loader.cpp: running max of the 16
logits, then softmax expectation (probability-weighted index sum) in
one pass.  `fexp` stands for the C `expf`. -/
def dfl_decode (fexp : ℚ → ℚ) (v : ℕ → ℚ) (reg_max : ℕ) : ℚ :=
  let max_val := (List.range (reg_max - 1)).foldl
    (fun m i => if m < v (i + 1) then v (i + 1) else m) (v 0)
  let sums := (List.range reg_max).foldl
    (fun (acc : ℚ × ℚ) i =>
      let e := fexp (v i - max_val)
      (acc.1 + e, acc.2 + e * i)) (0, 0)
  sums.2 / sums.1

/-! ### Helper lemmas about the NMS engine -/

theorem pruneList_sublist (t : ℚ) (d : Detection) : ∀ l : List Detection, List.Sublist (pruneList t d l) l := by
  intro l
  induction l with
  | nil => simp [pruneList]
  | cons e l ih =>
    rw [pruneList]
    split
    · exact ih.trans (List.sublist_cons_self e l)
    · exact ih.cons₂ e

theorem mem_pruneList {t : ℚ} {d e : Detection} {l : List Detection} :
    e ∈ pruneList t d l ↔ e ∈ l ∧ ¬ suppQ t d e := by
  induction l with
  | nil => simp [pruneList]
  | cons f l ih =>
    rw [pruneList]
    split
    · rename_i hf
      rw [ih]
      constructor
      · rintro ⟨h1, h2⟩
        exact ⟨List.mem_cons_of_mem f h1, h2⟩
      · rintro ⟨h1, h2⟩
        rcases List.mem_cons.mp h1 with h | h
        · exact absurd (h ▸ hf) h2
        · exact ⟨h, h2⟩
    · rename_i hf
      rw [List.mem_cons, List.mem_cons, ih]
      constructor
      · rintro (rfl | ⟨h1, h2⟩)
        · exact ⟨Or.inl rfl, hf⟩
        · exact ⟨Or.inr h1, h2⟩
      · rintro ⟨rfl | h1, h2⟩
        · exact Or.inl rfl
        · exact Or.inr ⟨h1, h2⟩

theorem pruneList_eq_self {t : ℚ} {d : Detection} {l : List Detection}
    (h : ∀ e ∈ l, ¬ suppQ t d e) : pruneList t d l = l := by
  induction l with
  | nil => rfl
  | cons e l ih =>
    rw [pruneList, if_neg (h e (List.mem_cons_self e l))]
    rw [ih (fun f hf => h f (List.mem_cons_of_mem e hf))]

theorem greedy_sublist (t : ℚ) : ∀ (fuel : ℕ) (l : List Detection), List.Sublist (greedy t fuel l) l := by
  intro fuel
  induction fuel with
  | zero => intro l; simp [greedy]
  | succ n ih =>
    intro l
    cases l with
    | nil => simp [greedy]
    | cons d rest =>
      rw [greedy]
      split
      · exact (ih rest).trans (List.sublist_cons_self d rest)
      · exact ((ih _).trans (pruneList_sublist t d rest)).cons₂ d

theorem greedy_nonneg {t : ℚ} : ∀ {fuel : ℕ} {l : List Detection},
    ∀ d ∈ greedy t fuel l, 0 ≤ d.score := by
  intro fuel
  induction fuel with
  | zero => intro l d hd; simp [greedy] at hd
  | succ n ih =>
    intro l d hd
    cases l with
    | nil => simp [greedy] at hd
    | cons e rest =>
      rw [greedy] at hd
      split at hd
      · exact ih d hd
      · rename_i he
        rcases List.mem_cons.mp hd with rfl | h
        · exact le_of_not_lt he
        · exact ih d h

theorem greedy_pairwise {t : ℚ} : ∀ {fuel : ℕ} {l : List Detection},
    (greedy t fuel l).Pairwise (fun d e => ¬ suppQ t d e) := by
  intro fuel
  induction fuel with
  | zero => intro l; simp [greedy]
  | succ n ih =>
    intro l
    cases l with
    | nil => simp [greedy]
    | cons d rest =>
      rw [greedy]
      split
      · exact ih
      · refine List.Pairwise.cons ?_ ih
        intro e he
        exact (mem_pruneList.mp ((greedy_sublist t n _).subset he)).2

theorem greedy_self {t : ℚ} : ∀ {fuel : ℕ} {l : List Detection},
    l.length ≤ fuel → (∀ d ∈ l, 0 ≤ d.score) →
    l.Pairwise (fun d e => ¬ suppQ t d e) → greedy t fuel l = l := by
  intro fuel
  induction fuel with
  | zero =>
    intro l hlen _ _
    rw [List.length_eq_zero.mp (Nat.le_zero.mp hlen)]
    rfl
  | succ n ih =>
    intro l hlen hpos hpw
    cases l with
    | nil => rfl
    | cons d rest =>
      rw [greedy, if_neg (not_lt.mpr (hpos d (List.mem_cons_self d rest)))]
      rw [List.pairwise_cons] at hpw
      rw [pruneList_eq_self hpw.1]
      rw [ih (Nat.le_of_succ_le_succ hlen)
        (fun e he => hpos e (List.mem_cons_of_mem d he)) hpw.2]

theorem yolo_nms_sublist_sorted (D : List Detection) (t : ℚ) :
    List.Sublist (yolo_nms D t) (sortDesc D) :=
  greedy_sublist t D.length (sortDesc D)

theorem yolo_nms_sorted (D : List Detection) (t : ℚ) :
    List.Sorted scoreGe (yolo_nms D t) :=
  (List.sorted_insertionSort scoreGe D).sublist (yolo_nms_sublist_sorted D t)

theorem yolo_nms_subset {D : List Detection} {t : ℚ} {d : Detection}
    (h : d ∈ yolo_nms D t) : d ∈ D :=
  (List.perm_insertionSort scoreGe D).subset ((yolo_nms_sublist_sorted D t).subset h)

theorem yolo_nms_nonneg {D : List Detection} {t : ℚ} :
    ∀ d ∈ yolo_nms D t, 0 ≤ d.score :=
  fun d hd => greedy_nonneg d hd

theorem yolo_nms_pairwise {D : List Detection} {t : ℚ} :
    (yolo_nms D t).Pairwise (fun d e => ¬ suppQ t d e) :=
  greedy_pairwise

/-! ### Claim theorems -/

/-- C7: the format detector maps, with `num_classes = 80`, shape
`[1,300,6]` to V10, `[1,84,8400]` to V8, `[1,25200,85]` to V5, and the
flattened 507-box shape `[1,507,85]` to V4. -/
theorem C7_format_detection_table :
    yolo_detect_version [1, 300, 6] 3 80 = .v10 ∧
    yolo_detect_version [1, 84, 8400] 3 80 = .v8 ∧
    yolo_detect_version [1, 25200, 85] 3 80 = .v5 ∧
    yolo_detect_version [1, 507, 85] 3 80 = .v4 := by
  refine ⟨?_, ?_, ?_, ?_⟩ <;> norm_num [yolo_detect_version, List.getD]

/-- C8: `yolo_nms` is idempotent: re-running NMS on its own output
with the same threshold returns the same detections in the same
order. -/
theorem C8_nms_idempotent (D : List Detection) (t : ℚ) :
    yolo_nms (yolo_nms D t) t = yolo_nms D t := by
  have hs : List.Sorted scoreGe (yolo_nms D t) := yolo_nms_sorted D t
  show greedy t (yolo_nms D t).length (sortDesc (yolo_nms D t)) = yolo_nms D t
  rw [sortDesc, hs.insertionSort_eq]
  exact greedy_self le_rfl yolo_nms_nonneg yolo_nms_pairwise

/-- C10: on a non-empty detection list with non-negative scores,
`yolo_nms` returns at most as many detections as it was given, sorted
by non-increasing score, each a member of the input, and some returned
detection carries the maximum score of the input. -/
theorem C10_nms_invariants (D : List Detection) (t : ℚ)
    (hne : D ≠ []) (hpos : ∀ d ∈ D, 0 ≤ d.score) :
    (yolo_nms D t).length ≤ D.length ∧
    List.Sorted scoreGe (yolo_nms D t) ∧
    (∀ d ∈ yolo_nms D t, d ∈ D) ∧
    ∃ d ∈ yolo_nms D t, ∀ e ∈ D, e.score ≤ d.score := by
  have hperm : List.Perm (List.insertionSort scoreGe D) D := List.perm_insertionSort scoreGe D
  refine ⟨?_, yolo_nms_sorted D t, fun d hd => yolo_nms_subset hd, ?_⟩
  · calc (yolo_nms D t).length ≤ (sortDesc D).length :=
          (yolo_nms_sublist_sorted D t).length_le
      _ = D.length := hperm.length_eq
  · obtain ⟨m, rest, hs⟩ : ∃ m rest, sortDesc D = m :: rest := by
      cases h : sortDesc D with
      | nil =>
        exfalso
        exact hne (List.eq_nil_of_length_eq_zero (by
          rw [← hperm.length_eq]
          exact congrArg List.length h))
      | cons m rest => exact ⟨m, rest, rfl⟩
    have hmD : m ∈ D := hperm.subset (by rw [show List.insertionSort scoreGe D = sortDesc D from rfl, hs]; exact List.mem_cons_self m rest)
    have hmpos : (0:ℚ) ≤ m.score := hpos m hmD
    have hfuel : D.length = rest.length + 1 := by
      rw [← hperm.length_eq, show List.insertionSort scoreGe D = sortDesc D from rfl, hs,
        List.length_cons]
    have hhead : yolo_nms D t = m :: greedy t rest.length (pruneList t m rest) := by
      rw [yolo_nms, hs, hfuel, greedy, if_neg (not_lt.mpr hmpos)]
    refine ⟨m, by rw [hhead]; exact List.mem_cons_self _ _, ?_⟩
    intro e he
    have hes : e ∈ sortDesc D := hperm.mem_iff.mpr he
    rw [hs] at hes
    rcases List.mem_cons.mp hes with rfl | h
    · exact le_rfl
    · have hsorted : List.Sorted scoreGe (m :: rest) := by
        rw [← hs]
        exact List.sorted_insertionSort scoreGe D
      exact List.rel_of_sorted_cons hsorted e h

/-- Closed witness for C10 at a concrete one-element input. -/
theorem C10_nms_invariants_witness :
    ([(⟨0, 0, 10, 10, 9/10, 0⟩ : Detection)] ≠ []) ∧
    ((yolo_nms [(⟨0, 0, 10, 10, 9/10, 0⟩ : Detection)] (1/2)).length ≤ 1 ∧
     List.Sorted scoreGe (yolo_nms [(⟨0, 0, 10, 10, 9/10, 0⟩ : Detection)] (1/2)) ∧
     (∀ d ∈ yolo_nms [(⟨0, 0, 10, 10, 9/10, 0⟩ : Detection)] (1/2),
        d ∈ [(⟨0, 0, 10, 10, 9/10, 0⟩ : Detection)]) ∧
     ∃ d ∈ yolo_nms [(⟨0, 0, 10, 10, 9/10, 0⟩ : Detection)] (1/2),
        ∀ e ∈ [(⟨0, 0, 10, 10, 9/10, 0⟩ : Detection)], e.score ≤ d.score) := by
  refine ⟨by simp, ?_⟩
  refine C10_nms_invariants [(⟨0, 0, 10, 10, 9/10, 0⟩ : Detection)] (1/2) (by simp) ?_
  intro d hd
  rw [List.mem_singleton] at hd
  rw [hd]
  norm_num

/-- Evaluation lemma: `greedy` on a two-element list. -/
theorem greedy_pair (t : ℚ) (x y : Detection) :
    greedy t 2 [x, y] =
      if x.score < 0 then (if y.score < 0 then [] else [y])
      else if suppQ t x y then [x]
      else if y.score < 0 then [x] else [x, y] := by
  by_cases h1 : x.score < 0 <;> by_cases h2 : suppQ t x y <;> by_cases h3 : y.score < 0 <;>
    simp [greedy, pruneList, h1, h2, h3]

/-- Evaluation lemma: `sortDesc` on a two-element list. -/
theorem sortDesc_pair (x y : Detection) :
    sortDesc [x, y] = if scoreGe x y then [x, y] else [y, x] := by
  simp [sortDesc, List.insertionSort, List.orderedInsert]

/-- C9 (amended): for two detections the suppression behaviour is
monotone in the threshold — every survivor at the lower threshold
survives at the higher one; the greedy cascade breaks this for three
or more detections. -/
theorem C9_nms_pair_monotone (a b : Detection) (t1 t2 : ℚ) (h12 : t1 ≤ t2) :
    ∀ d ∈ yolo_nms [a, b] t1, d ∈ yolo_nms [a, b] t2 := by
  have key : ∀ x y : Detection, ∀ d ∈ greedy t1 2 [x, y], d ∈ greedy t2 2 [x, y] := by
    intro x y d hd
    rw [greedy_pair] at hd ⊢
    by_cases h1 : x.score < 0
    · rw [if_pos h1] at hd ⊢
      exact hd
    · rw [if_neg h1] at hd ⊢
      by_cases h2 : suppQ t2 x y
      · have h2' : suppQ t1 x y := ⟨h2.1, lt_of_le_of_lt h12 h2.2⟩
        rw [if_pos h2'] at hd
        rw [if_pos h2]
        exact hd
      · rw [if_neg h2]
        by_cases h2' : suppQ t1 x y
        · rw [if_pos h2'] at hd
          rw [List.mem_singleton] at hd
          rw [hd]
          split <;> simp
        · rw [if_neg h2'] at hd
          exact hd
  intro d hd
  rw [yolo_nms] at hd ⊢
  rw [show ([a, b] : List Detection).length = 2 from rfl] at hd ⊢
  rw [sortDesc_pair] at hd ⊢
  by_cases hord : scoreGe a b
  · rw [if_pos hord] at hd ⊢
    exact key a b d hd
  · rw [if_neg hord] at hd ⊢
    exact key b a d hd

/-- Closed witness for C9's amended theorem at a concrete input. -/
theorem C9_nms_pair_monotone_witness :
    ((45:ℚ)/100 ≤ 6/10) ∧
    (∀ d ∈ yolo_nms [(⟨0, 0, 12, 10, 9/10, 0⟩ : Detection), ⟨4, 0, 16, 10, 8/10, 0⟩] (45/100),
       d ∈ yolo_nms [(⟨0, 0, 12, 10, 9/10, 0⟩ : Detection), ⟨4, 0, 16, 10, 8/10, 0⟩] (6/10)) :=
  ⟨by norm_num,
   C9_nms_pair_monotone (⟨0, 0, 12, 10, 9/10, 0⟩ : Detection) ⟨4, 0, 16, 10, 8/10, 0⟩
     (45/100) (6/10) (by norm_num)⟩

/-- Box A of the NMS monotonicity counterexample. -/
def detA : Detection := ⟨0, 0, 12, 10, 9/10, 0⟩

/-- Box B of the NMS monotonicity counterexample: IoU 1/2 with A. -/
def detB : Detection := ⟨4, 0, 16, 10, 8/10, 0⟩

/-- Box C of the NMS monotonicity counterexample: IoU 7/17 with A and
11/13 with B. -/
def detC : Detection := ⟨5, 0, 17, 10, 7/10, 0⟩

/-- C9 (counterexample): raising the NMS threshold from 0.45 to 0.6
suppresses box C, which the lower threshold kept — at 0.45 box A
suppresses B (IoU 1/2) and C survives (IoU 7/17 with A), while at 0.6
B survives A (IoU 1/2 ≤ 0.6) and then suppresses C (IoU 11/13), so the
suppressed set is not monotone in the threshold. -/
theorem C9_counterexample :
    ((45:ℚ)/100 ≤ 6/10) ∧
    detC ∈ yolo_nms [detA, detB, detC] (45/100) ∧
    detC ∉ yolo_nms [detA, detB, detC] (6/10) := by
  have hAB : iou detA detB = 1/2 := by norm_num [iou, detA, detB, max_def, min_def]
  have hAC : iou detA detC = 7/17 := by norm_num [iou, detA, detC, max_def, min_def]
  have hBC : iou detB detC = 11/13 := by norm_num [iou, detB, detC, max_def, min_def]
  have hsort : sortDesc [detA, detB, detC] = [detA, detB, detC] := by
    norm_num [sortDesc, List.insertionSort, List.orderedInsert, scoreGe, detA, detB, detC]
  have nA : ¬ detA.score < 0 := by norm_num [detA]
  have nB : ¬ detB.score < 0 := by norm_num [detB]
  have nC : ¬ detC.score < 0 := by norm_num [detC]
  have sAB : suppQ (45/100) detA detB := ⟨rfl, by rw [hAB]; norm_num⟩
  have sAC : ¬ suppQ (45/100) detA detC := by
    intro h
    have h2 := h.2
    rw [hAC] at h2
    exact absurd h2 (by norm_num)
  have s2AB : ¬ suppQ (6/10) detA detB := by
    intro h
    have h2 := h.2
    rw [hAB] at h2
    exact absurd h2 (by norm_num)
  have s2AC : ¬ suppQ (6/10) detA detC := by
    intro h
    have h2 := h.2
    rw [hAC] at h2
    exact absurd h2 (by norm_num)
  have s2BC : suppQ (6/10) detB detC := ⟨rfl, by rw [hBC]; norm_num⟩
  have e1 : yolo_nms [detA, detB, detC] (45/100) = [detA, detC] := by
    rw [yolo_nms, hsort, show ([detA, detB, detC] : List Detection).length = 3 from rfl]
    simp [greedy, pruneList, sAB, sAC, nA, nC]
  have e2 : yolo_nms [detA, detB, detC] (6/10) = [detA, detB] := by
    rw [yolo_nms, hsort, show ([detA, detB, detC] : List Detection).length = 3 from rfl]
    simp [greedy, pruneList, s2AB, s2AC, s2BC, nA, nB]
  refine ⟨by norm_num, ?_, ?_⟩
  · rw [e1]
    simp
  · rw [e2]
    norm_num [detA, detB, detC]

/-! ### Concrete inputs for the decoder claims -/

/-- A concrete stand-in for the C `sigmoid`; the decoder claims below
never evaluate it (their inputs keep every conditionally-sigmoided
value inside `[0,1]`), so any function works. -/
def sigc : ℚ → ℚ := fun _ => 1/2

/-- The single V10 row `[10, 10, 50, 50, 0.9, 3]` of the passthrough
test. -/
def v10row : List ℚ := [10, 10, 50, 50, 9/10, 3]

/-- A `[1,300,6]` tensor: row 0 is `v10row`, all other entries 0. -/
def outV10single : ℕ → ℚ := fun j => v10row.getD j 0

/-- A `[1,3,6]` tensor consisting of three identical copies of
`v10row` (duplicate overlapping rows). -/
def outV10dup : ℕ → ℚ := fun j => v10row.getD (j % 6) 0

/-- The detection encoded by `v10row`. -/
def dV10 : Detection := ⟨10, 10, 50, 50, 9/10, 3⟩

/-- Decode configuration of the V10 passthrough test (`Auto` version,
640×640 input, `conf_threshold` 0.5). -/
def cfgV10auto : YoloConfig :=
  { version := .auto, input_w := 640, input_h := 640, num_classes := 80,
    conf_threshold := 1/2, nms_threshold := 45/100, max_detections := 300 }

/-- The same configuration with the version pinned to V10. -/
def cfgV10pinned : YoloConfig := { cfgV10auto with version := .v10 }

/-- `filterMap` over `range n` when only index 0 produces a value. -/
theorem filterMap_range_single {f : ℕ → Option Detection} {n : ℕ} (d : Detection)
    (hn : 0 < n) (h0 : f 0 = some d) (hrest : ∀ i : ℕ, 1 ≤ i → f i = none) :
    (List.range n).filterMap f = [d] := by
  obtain ⟨m, rfl⟩ : ∃ m, n = m + 1 := ⟨n - 1, (Nat.succ_pred_eq_of_pos hn).symm⟩
  rw [List.range_succ_eq_map, List.filterMap_cons, h0, List.filterMap_map]
  rw [show List.filterMap (f ∘ Nat.succ) (List.range m) = [] from
    List.filterMap_eq_nil_iff.mpr (fun a _ => hrest (a + 1) (Nat.le_add_left 1 a))]

/-- `yolo_decode` for a resolved V10 version is exactly the V10 decode
followed by truncation to `max_detections` — no NMS stage. -/
theorem yolo_decode_v10_no_nms (sig : ℚ → ℚ) (output : ℕ → ℚ) (shape : List ℤ)
    (num_dims : ℕ) (cfg : YoloConfig) (max_dets : ℤ)
    (hver : resolvedVersion shape num_dims cfg = .v10) (hmd : 0 < max_dets) :
    yolo_decode sig output shape num_dims cfg max_dets =
      (decode_yolov10 output shape num_dims cfg max_dets.toNat).map
        (fun dets => if cfg.max_detections < (dets.length : ℤ)
                     then dets.take cfg.max_detections.toNat else dets) := by
  rw [yolo_decode, if_neg (not_le.mpr hmd), hver]
  cases hdec : decode_yolov10 output shape num_dims cfg max_dets.toNat with
  | none => rfl
  | some dets =>
    cases dets with
    | nil => simp
    | cons d rest => simp

/-- Unfolding of `decode_yolov10` on a `[1,300,6]` shape. -/
theorem decode_v10_300 (output : ℕ → ℚ) (cfg : YoloConfig) (md : ℕ) :
    decode_yolov10 output [1, 300, 6] 3 cfg md =
      some (((List.range 300).filterMap (fun i =>
        if output (i * 6 + 4) < cfg.conf_threshold then none
        else some ⟨output (i * 6 + 0), output (i * 6 + 1), output (i * 6 + 2),
                   output (i * 6 + 3), output (i * 6 + 4),
                   truncQ (output (i * 6 + 5))⟩)).take md) := rfl

/-- Unfolding of `decode_yolov10` on a `[1,3,6]` shape. -/
theorem decode_v10_3 (output : ℕ → ℚ) (cfg : YoloConfig) (md : ℕ) :
    decode_yolov10 output [1, 3, 6] 3 cfg md =
      some (((List.range 3).filterMap (fun i =>
        if output (i * 6 + 4) < cfg.conf_threshold then none
        else some ⟨output (i * 6 + 0), output (i * 6 + 1), output (i * 6 + 2),
                   output (i * 6 + 3), output (i * 6 + 4),
                   truncQ (output (i * 6 + 5))⟩)).take md) := rfl

/-- Entries of `outV10single` past the first row are all zero. -/
theorem outV10single_big {j : ℕ} (hj : 6 ≤ j) : outV10single j = 0 := by
  rw [outV10single]
  exact List.getD_eq_default _ _ (by simpa [v10row] using hj)

/-- Evaluation: the `[1,300,6]` single-row tensor decodes to exactly
the one detection of `v10row`. -/
theorem decodeV10_single_eval :
    decode_yolov10 outV10single [1, 300, 6] 3 cfgV10auto 300 = some [dV10] := by
  rw [decode_v10_300]
  rw [filterMap_range_single dV10 (by norm_num)
    (by norm_num [outV10single, v10row, cfgV10auto, dV10, truncQ])
    (fun i hi => by
      rw [if_pos]
      rw [outV10single_big (by omega)]
      norm_num [cfgV10auto])]
  simp

/-- Evaluation: the duplicated three-row tensor decodes to three
identical unsuppressed detections. -/
theorem decodeV10_dup_eval :
    decode_yolov10 outV10dup [1, 3, 6] 3 cfgV10pinned 300 = some [dV10, dV10, dV10] := by
  rw [decode_v10_3]
  have hrow : ∀ i : ℕ, i < 3 → ∀ j : ℕ, j < 6 → outV10dup (i * 6 + j) = v10row.getD j 0 := by
    intro i _ j hj
    rw [outV10dup, Nat.add_comm, Nat.add_mul_mod_self_right, Nat.mod_eq_of_lt hj]
  rw [show List.range 3 = [0, 1, 2] by
    rw [show (3:ℕ) = 2 + 1 from rfl, List.range_succ]
    rw [show (2:ℕ) = 1 + 1 from rfl, List.range_succ]
    rw [show (1:ℕ) = 0 + 1 from rfl, List.range_succ]
    rfl]
  simp only [List.filterMap_cons]
  rw [hrow 0 (by norm_num) 4 (by norm_num), hrow 0 (by norm_num) 0 (by norm_num),
    hrow 0 (by norm_num) 1 (by norm_num), hrow 0 (by norm_num) 2 (by norm_num),
    hrow 0 (by norm_num) 3 (by norm_num), hrow 0 (by norm_num) 5 (by norm_num),
    hrow 1 (by norm_num) 4 (by norm_num), hrow 1 (by norm_num) 0 (by norm_num),
    hrow 1 (by norm_num) 1 (by norm_num), hrow 1 (by norm_num) 2 (by norm_num),
    hrow 1 (by norm_num) 3 (by norm_num), hrow 1 (by norm_num) 5 (by norm_num),
    hrow 2 (by norm_num) 4 (by norm_num), hrow 2 (by norm_num) 0 (by norm_num),
    hrow 2 (by norm_num) 1 (by norm_num), hrow 2 (by norm_num) 2 (by norm_num),
    hrow 2 (by norm_num) 3 (by norm_num), hrow 2 (by norm_num) 5 (by norm_num)]
  norm_num [v10row, cfgV10pinned, cfgV10auto, dV10, truncQ]

/-- C4: whenever the resolved version is V10, `yolo_decode` is exactly
the V10 decode truncated to `max_detections` with no NMS stage; on the
synthetic `[1,300,6]` tensor with single row `[10,10,50,50,0.9,3]` and
`conf_threshold` 0.5 it returns exactly
`{x1:10,y1:10,x2:50,y2:50,score:0.9,class_id:3}`; and three duplicate
overlapping copies of that row are all returned unsuppressed. -/
theorem C4_v10_passthrough :
    (∀ (sig : ℚ → ℚ) (output : ℕ → ℚ) (shape : List ℤ) (num_dims : ℕ)
       (cfg : YoloConfig) (max_dets : ℤ),
       resolvedVersion shape num_dims cfg = .v10 → 0 < max_dets →
       yolo_decode sig output shape num_dims cfg max_dets =
         (decode_yolov10 output shape num_dims cfg max_dets.toNat).map
           (fun dets => if cfg.max_detections < (dets.length : ℤ)
                        then dets.take cfg.max_detections.toNat else dets)) ∧
    yolo_decode sigc outV10single [1, 300, 6] 3 cfgV10auto 300 = some [dV10] ∧
    yolo_decode sigc outV10dup [1, 3, 6] 3 cfgV10pinned 300 = some [dV10, dV10, dV10] := by
  refine ⟨yolo_decode_v10_no_nms, ?_, ?_⟩
  · rw [yolo_decode_v10_no_nms sigc outV10single [1, 300, 6] 3 cfgV10auto 300 rfl
      (by norm_num)]
    rw [show ((300:ℤ)).toNat = 300 from rfl, decodeV10_single_eval]
    norm_num [cfgV10auto]
  · rw [yolo_decode_v10_no_nms sigc outV10dup [1, 3, 6] 3 cfgV10pinned 300 rfl
      (by norm_num)]
    rw [show ((300:ℤ)).toNat = 300 from rfl, decodeV10_dup_eval]
    norm_num [cfgV10pinned, cfgV10auto]

/-- Closed witness for C4's universally quantified conjunct. -/
theorem C4_v10_passthrough_witness :
    (resolvedVersion [1, 3, 6] 3 cfgV10pinned = .v10 ∧ (0:ℤ) < 300) ∧
    yolo_decode sigc outV10dup [1, 3, 6] 3 cfgV10pinned 300 =
      (decode_yolov10 outV10dup [1, 3, 6] 3 cfgV10pinned (300:ℤ).toNat).map
        (fun dets => if cfgV10pinned.max_detections < (dets.length : ℤ)
                     then dets.take cfgV10pinned.max_detections.toNat else dets) :=
  ⟨⟨rfl, by norm_num⟩,
   C4_v10_passthrough.1 sigc outV10dup [1, 3, 6] 3 cfgV10pinned 300 rfl (by norm_num)⟩

/-- Characterization of the V10 decoder on a single-box tensor: the
box is kept exactly when its score is NOT strictly below the
threshold (so a score equal to `conf_threshold` is kept). -/
theorem decodeV10_single_box (output : ℕ → ℚ) (cfg : YoloConfig) (md : ℕ) (hmd : 1 ≤ md) :
    decode_yolov10 output [1, 1, 6] 3 cfg md =
      some (if output 4 < cfg.conf_threshold then []
            else [⟨output 0, output 1, output 2, output 3, output 4,
                   truncQ (output 5)⟩]) := by
  have h1 : decode_yolov10 output [1, 1, 6] 3 cfg md =
      some (((List.range 1).filterMap (fun i =>
        if output (i * 6 + 4) < cfg.conf_threshold then none
        else some ⟨output (i * 6 + 0), output (i * 6 + 1), output (i * 6 + 2),
                   output (i * 6 + 3), output (i * 6 + 4),
                   truncQ (output (i * 6 + 5))⟩)).take md) := rfl
  rw [h1, show List.range 1 = [0] from rfl]
  simp only [List.filterMap_cons, List.filterMap_nil, Nat.zero_mul, Nat.zero_add]
  by_cases h : output 4 < cfg.conf_threshold
  · rw [if_pos h, if_pos h]
    simp
  · rw [if_neg h, if_neg h]
    obtain ⟨k, rfl⟩ : ∃ k, md = k + 1 := ⟨md - 1, (Nat.succ_pred_eq_of_pos hmd).symm⟩
    simp

/-- Characterization of the V4/V5 decoder on a single-box `[1,1,6]`
tensor with one class and in-range objectness and class probability:
the box is kept (one detection) exactly when neither the objectness
nor the combined score is strictly below the threshold — a value equal
to `conf_threshold` is kept. -/
theorem decodeV4_single_box (sig : ℚ → ℚ) (output : ℕ → ℚ) (cfg : YoloConfig) (md : ℕ)
    (hmd : 1 ≤ md) (hnc : cfg.num_classes = 1)
    (hobj0 : 0 ≤ output 4) (hobj1 : output 4 ≤ 1)
    (hprob0 : 0 ≤ output 5) (hprob1 : output 5 ≤ 1) :
    (decode_yolov4 sig output [1, 1, 6] 3 cfg md).map List.length =
      some (if output 4 < cfg.conf_threshold ∨ output 4 * output 5 < cfg.conf_threshold
            then 0 else 1) := by
  have hdec : decode_yolov4 sig output [1, 1, 6] 3 cfg md =
      some (((List.range 1).filterMap (fun i =>
        decodeRowV4 sig cfg (fun j => output (i * 6 + j)) 1)).take md) := by
    simp only [decode_yolov4, hnc]
    norm_num [List.getD]
    rfl
  rw [hdec, show List.range 1 = [0] from rfl]
  simp only [List.filterMap_cons, List.filterMap_nil, Nat.zero_mul, Nat.zero_add]
  have hsig : ¬ (output 4 < 0 ∨ 1 < output 4) := by
    push_neg
    exact ⟨hobj0, hobj1⟩
  have hsigp : ¬ (output 5 < 0 ∨ 1 < output 5) := by
    push_neg
    exact ⟨hprob0, hprob1⟩
  simp only [decodeRowV4, bestClass, Nat.sub_self, List.range_zero, List.foldl_nil,
    Nat.add_zero, Nat.zero_mul, Nat.zero_add, if_neg hsig, if_neg hsigp]
  by_cases hA : output 4 < cfg.conf_threshold
  · rw [if_pos hA]
    simp [hA]
  · rw [if_neg hA]
    by_cases hB : output 4 * output 5 < cfg.conf_threshold
    · rw [if_pos hB]
      simp [hA, hB]
    · rw [if_neg hB]
      obtain ⟨k, rfl⟩ : ∃ k, md = k + 1 := ⟨md - 1, (Nat.succ_pred_eq_of_pos hmd).symm⟩
      simp [hA, hB]

/-- Characterization of the V8 decoder on a single-box `[1,5,1]`
tensor with an in-range class score: the box is kept exactly when its
score is NOT strictly below the threshold (yolo_decoder.c line 180
uses `best_score < conf_threshold -> skip`), so a score equal to
`conf_threshold` is kept. -/
theorem decodeV8_single_box (sig : ℚ → ℚ) (output : ℕ → ℚ) (cfg : YoloConfig) (md : ℕ)
    (hmd : 1 ≤ md) (hsc0 : 0 ≤ output 4) (hsc1 : output 4 ≤ 1) :
    (decode_yolov8 sig output [1, 5, 1] 3 cfg md).map List.length =
      some (if output 4 < cfg.conf_threshold then 0 else 1) := by
  have hdec : decode_yolov8 sig output [1, 5, 1] 3 cfg md =
      some (((List.range 1).filterMap (fun i =>
        decodeRowV8 sig cfg (fun k => output (k * 1 + i)) 1)).take md) := rfl
  rw [hdec, show List.range 1 = [0] from rfl]
  simp only [List.filterMap_cons, List.filterMap_nil, Nat.mul_one, Nat.add_zero]
  have hsig : ¬ (output 4 < 0 ∨ 1 < output 4) := by
    push_neg
    exact ⟨hsc0, hsc1⟩
  simp only [decodeRowV8, bestClass, Nat.sub_self, List.range_zero, List.foldl_nil,
    Nat.add_zero, Nat.mul_one, if_neg hsig]
  by_cases hA : output 4 < cfg.conf_threshold
  · rw [if_pos hA]
    simp [hA]
  · rw [if_neg hA]
    obtain ⟨k, rfl⟩ : ∃ k, md = k + 1 := ⟨md - 1, (Nat.succ_pred_eq_of_pos hmd).symm⟩
    simp [hA]

/-- A V10 row whose score is exactly the configured threshold 0.5. -/
def v10rowEq : List ℚ := [10, 10, 50, 50, 1/2, 2]

/-- The `[1,1,6]` tensor holding `v10rowEq`. -/
def outV10eq : ℕ → ℚ := fun j => v10rowEq.getD j 0

/-- The detection encoded by `v10rowEq`. -/
def dV10eq : Detection := ⟨10, 10, 50, 50, 1/2, 2⟩

/-- C5 (counterexample): a candidate whose score EQUALS
`conf_threshold` is returned by `yolo_decode` — the boundary is
inclusive, not the claimed strict exclusion. -/
theorem C5_counterexample :
    dV10eq.score = cfgV10pinned.conf_threshold ∧
    yolo_decode sigc outV10eq [1, 1, 6] 3 cfgV10pinned 300 = some [dV10eq] := by
  constructor
  · norm_num [dV10eq, cfgV10pinned, cfgV10auto]
  · rw [yolo_decode_v10_no_nms sigc outV10eq [1, 1, 6] 3 cfgV10pinned 300 rfl (by norm_num)]
    rw [show ((300:ℤ)).toNat = 300 from rfl]
    rw [decodeV10_single_box outV10eq cfgV10pinned 300 (by norm_num)]
    rw [if_neg (show ¬ outV10eq 4 < cfgV10pinned.conf_threshold by
      norm_num [outV10eq, v10rowEq, cfgV10pinned, cfgV10auto])]
    norm_num [outV10eq, v10rowEq, dV10eq, truncQ, cfgV10pinned, cfgV10auto,
      Rat.num_ofNat, Rat.den_ofNat]

/-- C5 (amended): in the V4/V5, V8 and V10 decoders the confidence
test is `score < conf_threshold → skip`: a candidate strictly below
the threshold is excluded, while candidates equal to or above the
threshold are included. -/
theorem C5_threshold_inclusive :
    (∀ (output : ℕ → ℚ) (cfg : YoloConfig) (md : ℕ), 1 ≤ md →
       decode_yolov10 output [1, 1, 6] 3 cfg md =
         some (if output 4 < cfg.conf_threshold then []
               else [⟨output 0, output 1, output 2, output 3, output 4,
                      truncQ (output 5)⟩])) ∧
    (∀ (sig : ℚ → ℚ) (output : ℕ → ℚ) (cfg : YoloConfig) (md : ℕ),
       1 ≤ md → cfg.num_classes = 1 →
       0 ≤ output 4 → output 4 ≤ 1 → 0 ≤ output 5 → output 5 ≤ 1 →
       (decode_yolov4 sig output [1, 1, 6] 3 cfg md).map List.length =
         some (if output 4 < cfg.conf_threshold ∨
                  output 4 * output 5 < cfg.conf_threshold then 0 else 1)) ∧
    (∀ (sig : ℚ → ℚ) (output : ℕ → ℚ) (cfg : YoloConfig) (md : ℕ),
       1 ≤ md → 0 ≤ output 4 → output 4 ≤ 1 →
       (decode_yolov8 sig output [1, 5, 1] 3 cfg md).map List.length =
         some (if output 4 < cfg.conf_threshold then 0 else 1)) :=
  ⟨decodeV10_single_box,
   fun sig output cfg md h1 h2 h3 h4 h5 h6 =>
     decodeV4_single_box sig output cfg md h1 h2 h3 h4 h5 h6,
   fun sig output cfg md h1 h2 h3 =>
     decodeV8_single_box sig output cfg md h1 h2 h3⟩

/-- Config for the V4 boundary witness: one class, threshold 0.5. -/
def cfgV4one : YoloConfig :=
  { version := .v4, input_w := 640, input_h := 640, num_classes := 1,
    conf_threshold := 1/2, nms_threshold := 45/100, max_detections := 300 }

/-- A V4 row with objectness 3/4 and class probability 4/5. -/
def v4rowHalf : List ℚ := [1/4, 1/4, 1/4, 1/4, 3/4, 4/5]

/-- The `[1,1,6]` tensor holding `v4rowHalf`. -/
def outV4half : ℕ → ℚ := fun j => v4rowHalf.getD j 0

/-- A `[1,5,1]` V8 tensor with normalized box `(1/2,1/2,1/2,1/2)` and
class score 0.9. -/
def outV8c : ℕ → ℚ := fun j => ([1/2, 1/2, 1/2, 1/2, 9/10] : List ℚ).getD j 0

/-- Closed witness for C5's amended theorem at concrete inputs. -/
theorem C5_threshold_inclusive_witness :
    ((1:ℕ) ≤ 300 ∧
     decode_yolov10 outV10eq [1, 1, 6] 3 cfgV10pinned 300 =
       some (if outV10eq 4 < cfgV10pinned.conf_threshold then []
             else [⟨outV10eq 0, outV10eq 1, outV10eq 2, outV10eq 3, outV10eq 4,
                    truncQ (outV10eq 5)⟩])) ∧
    ((1:ℕ) ≤ 300 ∧ cfgV4one.num_classes = 1 ∧
     (0:ℚ) ≤ outV4half 4 ∧ outV4half 4 ≤ 1 ∧
     (0:ℚ) ≤ outV4half 5 ∧ outV4half 5 ≤ 1 ∧
     (decode_yolov4 sigc outV4half [1, 1, 6] 3 cfgV4one 300).map List.length =
       some (if outV4half 4 < cfgV4one.conf_threshold ∨
                outV4half 4 * outV4half 5 < cfgV4one.conf_threshold then 0 else 1)) ∧
    ((1:ℕ) ≤ 300 ∧ (0:ℚ) ≤ outV8c 4 ∧ outV8c 4 ≤ 1 ∧
     (decode_yolov8 sigc outV8c [1, 5, 1] 3 cfgV4one 300).map List.length =
       some (if outV8c 4 < cfgV4one.conf_threshold then 0 else 1)) :=
  ⟨⟨by norm_num, C5_threshold_inclusive.1 outV10eq cfgV10pinned 300 (by norm_num)⟩,
   ⟨by norm_num, rfl,
    by norm_num [outV4half, v4rowHalf], by norm_num [outV4half, v4rowHalf],
    by norm_num [outV4half, v4rowHalf], by norm_num [outV4half, v4rowHalf],
    C5_threshold_inclusive.2.1 sigc outV4half cfgV4one 300 (by norm_num) rfl
      (by norm_num [outV4half, v4rowHalf]) (by norm_num [outV4half, v4rowHalf])
      (by norm_num [outV4half, v4rowHalf]) (by norm_num [outV4half, v4rowHalf])⟩,
   ⟨by norm_num, by norm_num [outV8c], by norm_num [outV8c],
    C5_threshold_inclusive.2.2 sigc outV8c cfgV4one 300 (by norm_num)
      (by norm_num [outV8c]) (by norm_num [outV8c])⟩⟩

/-- Characterization of the V4/V5 box-coordinate heuristic on a kept
single-box tensor: the four raw values are scaled by the input size
exactly when ALL FOUR are `≤ 1` — there is no lower-bound (`≥ 0`)
check. -/
theorem decodeV4_scale_condition (sig : ℚ → ℚ) (output : ℕ → ℚ) (cfg : YoloConfig) (md : ℕ)
    (hmd : 1 ≤ md) (hnc : cfg.num_classes = 1)
    (hobj0 : 0 ≤ output 4) (hobj1 : output 4 ≤ 1)
    (hprob0 : 0 ≤ output 5) (hprob1 : output 5 ≤ 1)
    (hA : ¬ output 4 < cfg.conf_threshold)
    (hB : ¬ output 4 * output 5 < cfg.conf_threshold) :
    decode_yolov4 sig output [1, 1, 6] 3 cfg md =
      some [{ x1 := (if output 0 ≤ 1 ∧ output 1 ≤ 1 ∧ output 2 ≤ 1 ∧ output 3 ≤ 1
                     then output 0 * cfg.input_w else output 0) -
                    (if output 0 ≤ 1 ∧ output 1 ≤ 1 ∧ output 2 ≤ 1 ∧ output 3 ≤ 1
                     then output 2 * cfg.input_w else output 2) * (1/2),
              y1 := (if output 0 ≤ 1 ∧ output 1 ≤ 1 ∧ output 2 ≤ 1 ∧ output 3 ≤ 1
                     then output 1 * cfg.input_h else output 1) -
                    (if output 0 ≤ 1 ∧ output 1 ≤ 1 ∧ output 2 ≤ 1 ∧ output 3 ≤ 1
                     then output 3 * cfg.input_h else output 3) * (1/2),
              x2 := (if output 0 ≤ 1 ∧ output 1 ≤ 1 ∧ output 2 ≤ 1 ∧ output 3 ≤ 1
                     then output 0 * cfg.input_w else output 0) +
                    (if output 0 ≤ 1 ∧ output 1 ≤ 1 ∧ output 2 ≤ 1 ∧ output 3 ≤ 1
                     then output 2 * cfg.input_w else output 2) * (1/2),
              y2 := (if output 0 ≤ 1 ∧ output 1 ≤ 1 ∧ output 2 ≤ 1 ∧ output 3 ≤ 1
                     then output 1 * cfg.input_h else output 1) +
                    (if output 0 ≤ 1 ∧ output 1 ≤ 1 ∧ output 2 ≤ 1 ∧ output 3 ≤ 1
                     then output 3 * cfg.input_h else output 3) * (1/2),
              score := output 4 * output 5, class_id := 0 }] := by
  have hdec : decode_yolov4 sig output [1, 1, 6] 3 cfg md =
      some (((List.range 1).filterMap (fun i =>
        decodeRowV4 sig cfg (fun j => output (i * 6 + j)) 1)).take md) := by
    simp only [decode_yolov4, hnc]
    norm_num [List.getD]
    rfl
  rw [hdec, show List.range 1 = [0] from rfl]
  simp only [List.filterMap_cons, List.filterMap_nil, Nat.zero_mul, Nat.zero_add]
  have hsig : ¬ (output 4 < 0 ∨ 1 < output 4) := by
    push_neg
    exact ⟨hobj0, hobj1⟩
  have hsigp : ¬ (output 5 < 0 ∨ 1 < output 5) := by
    push_neg
    exact ⟨hprob0, hprob1⟩
  simp only [decodeRowV4, bestClass, Nat.sub_self, List.range_zero, List.foldl_nil,
    Nat.add_zero, Nat.zero_mul, Nat.zero_add, if_neg hsig, if_neg hsigp,
    if_neg hA, if_neg hB]
  obtain ⟨k, rfl⟩ : ∃ k, md = k + 1 := ⟨md - 1, (Nat.succ_pred_eq_of_pos hmd).symm⟩
  simp

/-- Characterization of the V8 box-coordinate heuristic on a kept
single-box `[1,5,1]` tensor: identical `≤ 1`-only scaling test. -/
theorem decodeV8_scale_condition (sig : ℚ → ℚ) (output : ℕ → ℚ) (cfg : YoloConfig) (md : ℕ)
    (hmd : 1 ≤ md)
    (hsc0 : 0 ≤ output 4) (hsc1 : output 4 ≤ 1)
    (hA : ¬ output 4 < cfg.conf_threshold) :
    decode_yolov8 sig output [1, 5, 1] 3 cfg md =
      some [{ x1 := (if output 0 ≤ 1 ∧ output 1 ≤ 1 ∧ output 2 ≤ 1 ∧ output 3 ≤ 1
                     then output 0 * cfg.input_w else output 0) -
                    (if output 0 ≤ 1 ∧ output 1 ≤ 1 ∧ output 2 ≤ 1 ∧ output 3 ≤ 1
                     then output 2 * cfg.input_w else output 2) * (1/2),
              y1 := (if output 0 ≤ 1 ∧ output 1 ≤ 1 ∧ output 2 ≤ 1 ∧ output 3 ≤ 1
                     then output 1 * cfg.input_h else output 1) -
                    (if output 0 ≤ 1 ∧ output 1 ≤ 1 ∧ output 2 ≤ 1 ∧ output 3 ≤ 1
                     then output 3 * cfg.input_h else output 3) * (1/2),
              x2 := (if output 0 ≤ 1 ∧ output 1 ≤ 1 ∧ output 2 ≤ 1 ∧ output 3 ≤ 1
                     then output 0 * cfg.input_w else output 0) +
                    (if output 0 ≤ 1 ∧ output 1 ≤ 1 ∧ output 2 ≤ 1 ∧ output 3 ≤ 1
                     then output 2 * cfg.input_w else output 2) * (1/2),
              y2 := (if output 0 ≤ 1 ∧ output 1 ≤ 1 ∧ output 2 ≤ 1 ∧ output 3 ≤ 1
                     then output 1 * cfg.input_h else output 1) +
                    (if output 0 ≤ 1 ∧ output 1 ≤ 1 ∧ output 2 ≤ 1 ∧ output 3 ≤ 1
                     then output 3 * cfg.input_h else output 3) * (1/2),
              score := output 4, class_id := 0 }] := by
  have hdec : decode_yolov8 sig output [1, 5, 1] 3 cfg md =
      some (((List.range 1).filterMap (fun i =>
        decodeRowV8 sig cfg (fun k => output (k * 1 + i)) 1)).take md) := rfl
  rw [hdec, show List.range 1 = [0] from rfl]
  simp only [List.filterMap_cons, List.filterMap_nil, Nat.mul_one, Nat.add_zero]
  have hsig : ¬ (output 4 < 0 ∨ 1 < output 4) := by
    push_neg
    exact ⟨hsc0, hsc1⟩
  simp only [decodeRowV8, bestClass, Nat.sub_self, List.range_zero, List.foldl_nil,
    Nat.add_zero, Nat.mul_one, if_neg hsig, if_neg hA]
  obtain ⟨k, rfl⟩ : ∃ k, md = k + 1 := ⟨md - 1, (Nat.succ_pred_eq_of_pos hmd).symm⟩
  simp

/-- A V4 row whose center-x is negative (outside `[0,1]`) while all
four coordinate values are `≤ 1`. -/
def v4rowNeg : List ℚ := [-5, 1/2, 1/2, 1/2, 9/10, 4/5]

/-- The `[1,1,6]` tensor holding `v4rowNeg`. -/
def outNeg : ℕ → ℚ := fun j => v4rowNeg.getD j 0

/-- C6 (counterexample): with `cx = -5` (outside `[0,1]`) but all four
raw values `≤ 1`, the V4 decoder still scales by the input size
(`x1 = -5·640 - (1/2·640)/2 = -3360`), instead of the claimed
pixel-space treatment (`x1 = -5 - 1/4`): the heuristic has no
lower-bound check. -/
theorem C6_counterexample :
    decode_yolov4 sigc outNeg [1, 1, 6] 3 cfgV4one 300 =
      some [⟨-3360, 160, -3040, 480, 18/25, 0⟩] ∧
    ¬ (0 ≤ outNeg 0 ∧ outNeg 0 ≤ 1) ∧
    (⟨-3360, 160, -3040, 480, (18:ℚ)/25, 0⟩ : Detection).x1 ≠ outNeg 0 - outNeg 2 * (1/2) := by
  refine ⟨?_, by norm_num [outNeg, v4rowNeg], by norm_num [outNeg, v4rowNeg]⟩
  rw [decodeV4_scale_condition sigc outNeg cfgV4one 300 (by norm_num) rfl
    (by norm_num [outNeg, v4rowNeg]) (by norm_num [outNeg, v4rowNeg])
    (by norm_num [outNeg, v4rowNeg]) (by norm_num [outNeg, v4rowNeg])
    (by norm_num [outNeg, v4rowNeg, cfgV4one]) (by norm_num [outNeg, v4rowNeg, cfgV4one])]
  rw [if_pos (by norm_num [outNeg, v4rowNeg] :
    outNeg 0 ≤ 1 ∧ outNeg 1 ≤ 1 ∧ outNeg 2 ≤ 1 ∧ outNeg 3 ≤ 1)]
  norm_num [outNeg, v4rowNeg, cfgV4one]

/-- C6 (amended): the V4/V5 and V8 decoders scale the four raw box
values by the input size exactly when all four are `≤ 1`; there is no
lower-bound check, so boxes with negative raw values are scaled too. -/
theorem C6_scale_iff_all_le_one :
    (∀ (sig : ℚ → ℚ) (output : ℕ → ℚ) (cfg : YoloConfig) (md : ℕ),
       1 ≤ md → cfg.num_classes = 1 →
       0 ≤ output 4 → output 4 ≤ 1 → 0 ≤ output 5 → output 5 ≤ 1 →
       ¬ output 4 < cfg.conf_threshold → ¬ output 4 * output 5 < cfg.conf_threshold →
       decode_yolov4 sig output [1, 1, 6] 3 cfg md =
         some [{ x1 := (if output 0 ≤ 1 ∧ output 1 ≤ 1 ∧ output 2 ≤ 1 ∧ output 3 ≤ 1
                        then output 0 * cfg.input_w else output 0) -
                       (if output 0 ≤ 1 ∧ output 1 ≤ 1 ∧ output 2 ≤ 1 ∧ output 3 ≤ 1
                        then output 2 * cfg.input_w else output 2) * (1/2),
                 y1 := (if output 0 ≤ 1 ∧ output 1 ≤ 1 ∧ output 2 ≤ 1 ∧ output 3 ≤ 1
                        then output 1 * cfg.input_h else output 1) -
                       (if output 0 ≤ 1 ∧ output 1 ≤ 1 ∧ output 2 ≤ 1 ∧ output 3 ≤ 1
                        then output 3 * cfg.input_h else output 3) * (1/2),
                 x2 := (if output 0 ≤ 1 ∧ output 1 ≤ 1 ∧ output 2 ≤ 1 ∧ output 3 ≤ 1
                        then output 0 * cfg.input_w else output 0) +
                       (if output 0 ≤ 1 ∧ output 1 ≤ 1 ∧ output 2 ≤ 1 ∧ output 3 ≤ 1
                        then output 2 * cfg.input_w else output 2) * (1/2),
                 y2 := (if output 0 ≤ 1 ∧ output 1 ≤ 1 ∧ output 2 ≤ 1 ∧ output 3 ≤ 1
                        then output 1 * cfg.input_h else output 1) +
                       (if output 0 ≤ 1 ∧ output 1 ≤ 1 ∧ output 2 ≤ 1 ∧ output 3 ≤ 1
                        then output 3 * cfg.input_h else output 3) * (1/2),
                 score := output 4 * output 5, class_id := 0 }]) ∧
    (∀ (sig : ℚ → ℚ) (output : ℕ → ℚ) (cfg : YoloConfig) (md : ℕ),
       1 ≤ md → 0 ≤ output 4 → output 4 ≤ 1 → ¬ output 4 < cfg.conf_threshold →
       decode_yolov8 sig output [1, 5, 1] 3 cfg md =
         some [{ x1 := (if output 0 ≤ 1 ∧ output 1 ≤ 1 ∧ output 2 ≤ 1 ∧ output 3 ≤ 1
                        then output 0 * cfg.input_w else output 0) -
                       (if output 0 ≤ 1 ∧ output 1 ≤ 1 ∧ output 2 ≤ 1 ∧ output 3 ≤ 1
                        then output 2 * cfg.input_w else output 2) * (1/2),
                 y1 := (if output 0 ≤ 1 ∧ output 1 ≤ 1 ∧ output 2 ≤ 1 ∧ output 3 ≤ 1
                        then output 1 * cfg.input_h else output 1) -
                       (if output 0 ≤ 1 ∧ output 1 ≤ 1 ∧ output 2 ≤ 1 ∧ output 3 ≤ 1
                        then output 3 * cfg.input_h else output 3) * (1/2),
                 x2 := (if output 0 ≤ 1 ∧ output 1 ≤ 1 ∧ output 2 ≤ 1 ∧ output 3 ≤ 1
                        then output 0 * cfg.input_w else output 0) +
                       (if output 0 ≤ 1 ∧ output 1 ≤ 1 ∧ output 2 ≤ 1 ∧ output 3 ≤ 1
                        then output 2 * cfg.input_w else output 2) * (1/2),
                 y2 := (if output 0 ≤ 1 ∧ output 1 ≤ 1 ∧ output 2 ≤ 1 ∧ output 3 ≤ 1
                        then output 1 * cfg.input_h else output 1) +
                       (if output 0 ≤ 1 ∧ output 1 ≤ 1 ∧ output 2 ≤ 1 ∧ output 3 ≤ 1
                        then output 3 * cfg.input_h else output 3) * (1/2),
                 score := output 4, class_id := 0 }]) :=
  ⟨fun sig output cfg md h1 h2 h3 h4 h5 h6 h7 h8 =>
     decodeV4_scale_condition sig output cfg md h1 h2 h3 h4 h5 h6 h7 h8,
   fun sig output cfg md h1 h2 h3 h4 =>
     decodeV8_scale_condition sig output cfg md h1 h2 h3 h4⟩

/-- Closed witness for C6's amended theorem at concrete inputs. -/
theorem C6_scale_iff_all_le_one_witness :
    ((1:ℕ) ≤ 300 ∧ cfgV4one.num_classes = 1 ∧
     (0:ℚ) ≤ outV4half 4 ∧ outV4half 4 ≤ 1 ∧ (0:ℚ) ≤ outV4half 5 ∧ outV4half 5 ≤ 1 ∧
     ¬ outV4half 4 < cfgV4one.conf_threshold ∧
     ¬ outV4half 4 * outV4half 5 < cfgV4one.conf_threshold ∧
     decode_yolov4 sigc outV4half [1, 1, 6] 3 cfgV4one 300 =
       some [⟨80, 80, 240, 240, 3/5, 0⟩]) ∧
    ((1:ℕ) ≤ 300 ∧ (0:ℚ) ≤ outV8c 4 ∧ outV8c 4 ≤ 1 ∧
     ¬ outV8c 4 < cfgV4one.conf_threshold ∧
     decode_yolov8 sigc outV8c [1, 5, 1] 3 cfgV4one 300 =
       some [⟨160, 160, 480, 480, 9/10, 0⟩]) := by
  refine ⟨⟨by norm_num, rfl, by norm_num [outV4half, v4rowHalf], by norm_num [outV4half, v4rowHalf],
    by norm_num [outV4half, v4rowHalf], by norm_num [outV4half, v4rowHalf],
    by norm_num [outV4half, v4rowHalf, cfgV4one], by norm_num [outV4half, v4rowHalf, cfgV4one], ?_⟩,
    by norm_num, by norm_num [outV8c], by norm_num [outV8c],
    by norm_num [outV8c, cfgV4one], ?_⟩
  · rw [C6_scale_iff_all_le_one.1 sigc outV4half cfgV4one 300 (by norm_num) rfl
      (by norm_num [outV4half, v4rowHalf]) (by norm_num [outV4half, v4rowHalf])
      (by norm_num [outV4half, v4rowHalf]) (by norm_num [outV4half, v4rowHalf])
      (by norm_num [outV4half, v4rowHalf, cfgV4one])
      (by norm_num [outV4half, v4rowHalf, cfgV4one])]
    rw [if_pos (by norm_num [outV4half, v4rowHalf] :
      outV4half 0 ≤ 1 ∧ outV4half 1 ≤ 1 ∧ outV4half 2 ≤ 1 ∧ outV4half 3 ≤ 1)]
    norm_num [outV4half, v4rowHalf, cfgV4one]
  · rw [C6_scale_iff_all_le_one.2 sigc outV8c cfgV4one 300 (by norm_num)
      (by norm_num [outV8c]) (by norm_num [outV8c]) (by norm_num [outV8c, cfgV4one])]
    rw [if_pos (by norm_num [outV8c] :
      outV8c 0 ≤ 1 ∧ outV8c 1 ≤ 1 ∧ outV8c 2 ≤ 1 ∧ outV8c 3 ≤ 1)]
    norm_num [outV8c, cfgV4one]

/-- Both branches non-negative makes the conditional non-negative. -/
theorem iteNonneg (c : Prop) [Decidable c] (u v : ℚ) (hu : 0 ≤ u) (hv : 0 ≤ v) :
    0 ≤ if c then u else v := by
  split
  · exact hu
  · exact hv

/-- Any detection produced by the V4 row decoder has ordered corners
provided the raw width/height and the input dimensions are
non-negative (the conversion is `cx ∓ w/2`, `cy ∓ h/2`). -/
theorem decodeRowV4_ordered {sig : ℚ → ℚ} {cfg : YoloConfig} {box : ℕ → ℚ} {nc : ℕ}
    {d : Detection} (h : decodeRowV4 sig cfg box nc = some d)
    (hw : 0 ≤ box 2) (hh : 0 ≤ box 3)
    (hW : 0 ≤ cfg.input_w) (hH : 0 ≤ cfg.input_h) :
    d.x1 ≤ d.x2 ∧ d.y1 ≤ d.y2 := by
  have hWq : (0:ℚ) ≤ (cfg.input_w : ℚ) := by exact_mod_cast hW
  have hHq : (0:ℚ) ≤ (cfg.input_h : ℚ) := by exact_mod_cast hH
  simp only [decodeRowV4] at h
  split at h
  all_goals split at h
  all_goals try exact Option.noConfusion h
  all_goals split at h
  all_goals split at h
  all_goals try exact Option.noConfusion h
  all_goals obtain rfl := (Option.some.inj h).symm
  all_goals refine ⟨?_, ?_⟩
  all_goals first
    | linarith [iteNonneg (box 0 ≤ 1 ∧ box 1 ≤ 1 ∧ box 2 ≤ 1 ∧ box 3 ≤ 1)
        (box 2 * (cfg.input_w : ℚ)) (box 2) (mul_nonneg hw hWq) hw]
    | linarith [iteNonneg (box 0 ≤ 1 ∧ box 1 ≤ 1 ∧ box 2 ≤ 1 ∧ box 3 ≤ 1)
        (box 3 * (cfg.input_h : ℚ)) (box 3) (mul_nonneg hh hHq) hh]

/-- Same corner-ordering fact for the V8 row decoder. -/
theorem decodeRowV8_ordered {sig : ℚ → ℚ} {cfg : YoloConfig} {ch : ℕ → ℚ} {nc : ℕ}
    {d : Detection} (h : decodeRowV8 sig cfg ch nc = some d)
    (hw : 0 ≤ ch 2) (hh : 0 ≤ ch 3)
    (hW : 0 ≤ cfg.input_w) (hH : 0 ≤ cfg.input_h) :
    d.x1 ≤ d.x2 ∧ d.y1 ≤ d.y2 := by
  have hWq : (0:ℚ) ≤ (cfg.input_w : ℚ) := by exact_mod_cast hW
  have hHq : (0:ℚ) ≤ (cfg.input_h : ℚ) := by exact_mod_cast hH
  simp only [decodeRowV8] at h
  split at h
  all_goals split at h
  all_goals try exact Option.noConfusion h
  all_goals obtain rfl := (Option.some.inj h).symm
  all_goals refine ⟨?_, ?_⟩
  all_goals first
    | linarith [iteNonneg (ch 0 ≤ 1 ∧ ch 1 ≤ 1 ∧ ch 2 ≤ 1 ∧ ch 3 ≤ 1)
        (ch 2 * (cfg.input_w : ℚ)) (ch 2) (mul_nonneg hw hWq) hw]
    | linarith [iteNonneg (ch 0 ≤ 1 ∧ ch 1 ≤ 1 ∧ ch 2 ≤ 1 ∧ ch 3 ≤ 1)
        (ch 3 * (cfg.input_h : ℚ)) (ch 3) (mul_nonneg hh hHq) hh]

/-- Lift of `decodeRowV4_ordered` to the whole V4/V5 decoder. -/
theorem decode_yolov4_ordered {sig : ℚ → ℚ} {output : ℕ → ℚ} {shape : List ℤ}
    {num_dims : ℕ} {cfg : YoloConfig} {md : ℕ} {dets : List Detection}
    (h : decode_yolov4 sig output shape num_dims cfg md = some dets)
    (hout : ∀ j, 0 ≤ output j) (hW : 0 ≤ cfg.input_w) (hH : 0 ≤ cfg.input_h) :
    ∀ d ∈ dets, d.x1 ≤ d.x2 ∧ d.y1 ≤ d.y2 := by
  intro d hd
  simp only [decode_yolov4] at h
  split at h
  · exact Option.noConfusion h
  · split at h
    all_goals split at h
    all_goals try exact Option.noConfusion h
    all_goals obtain rfl := (Option.some.inj h).symm
    all_goals obtain ⟨i, _, hrow⟩ := List.mem_filterMap.mp (List.mem_of_mem_take hd)
    all_goals exact decodeRowV4_ordered hrow (hout _) (hout _) hW hH

/-- Lift of `decodeRowV8_ordered` to the whole V8 decoder. -/
theorem decode_yolov8_ordered {sig : ℚ → ℚ} {output : ℕ → ℚ} {shape : List ℤ}
    {num_dims : ℕ} {cfg : YoloConfig} {md : ℕ} {dets : List Detection}
    (h : decode_yolov8 sig output shape num_dims cfg md = some dets)
    (hout : ∀ j, 0 ≤ output j) (hW : 0 ≤ cfg.input_w) (hH : 0 ≤ cfg.input_h) :
    ∀ d ∈ dets, d.x1 ≤ d.x2 ∧ d.y1 ≤ d.y2 := by
  intro d hd
  simp only [decode_yolov8] at h
  split at h
  · exact Option.noConfusion h
  · split at h
    · exact Option.noConfusion h
    · obtain rfl := (Option.some.inj h).symm
      obtain ⟨i, _, hrow⟩ := List.mem_filterMap.mp (List.mem_of_mem_take hd)
      exact decodeRowV8_ordered hrow (hout _) (hout _) hW hH

/-- Entrywise non-negative list gives non-negative `getD` at default 0. -/
theorem getD_nonneg {l : List ℚ} (hl : ∀ x ∈ l, 0 ≤ x) (j : ℕ) : 0 ≤ l.getD j 0 := by
  rcases lt_or_le j l.length with h | h
  · rw [List.getD_eq_getElem l 0 h]
    exact hl _ (List.getElem_mem h)
  · rw [List.getD_eq_default _ _ h]

/-- A V10 row with a negative corner and a corner past the 640-pixel
input bound. -/
def outClamp : ℕ → ℚ := fun j => ([-5, -5, 700, 700, 9/10, 3] : List ℚ).getD j 0

/-- A V10 row whose corners are listed in reversed order. -/
def outSwap : ℕ → ℚ := fun j => ([50, 50, 10, 10, 9/10, 3] : List ℚ).getD j 0

/-- C1 (counterexample): the decoders perform no clamping — the V10
decoder copies raw corners unchanged, so `yolo_decode` returns a
detection with `x1 = -5 < 0` and `x2 = 700 > input_w = 640`, and on a
reversed row even `x2 < x1`. -/
theorem C1_counterexample :
    yolo_decode sigc outClamp [1, 1, 6] 3 cfgV10pinned 300 =
      some [⟨-5, -5, 700, 700, 9/10, 3⟩] ∧
    ((-5:ℚ) < 0 ∧ (cfgV10pinned.input_w : ℚ) < 700) ∧
    yolo_decode sigc outSwap [1, 1, 6] 3 cfgV10pinned 300 =
      some [⟨50, 50, 10, 10, 9/10, 3⟩] ∧
    ¬ ((50:ℚ) ≤ 10) := by
  refine ⟨?_, ⟨by norm_num, by norm_num [cfgV10pinned, cfgV10auto]⟩, ?_, by norm_num⟩
  · rw [yolo_decode_v10_no_nms sigc outClamp [1, 1, 6] 3 cfgV10pinned 300 rfl (by norm_num)]
    rw [show ((300:ℤ)).toNat = 300 from rfl]
    rw [decodeV10_single_box outClamp cfgV10pinned 300 (by norm_num)]
    rw [if_neg (show ¬ outClamp 4 < cfgV10pinned.conf_threshold by
      norm_num [outClamp, cfgV10pinned, cfgV10auto])]
    norm_num [outClamp, truncQ, cfgV10pinned, cfgV10auto, Rat.num_ofNat, Rat.den_ofNat]
  · rw [yolo_decode_v10_no_nms sigc outSwap [1, 1, 6] 3 cfgV10pinned 300 rfl (by norm_num)]
    rw [show ((300:ℤ)).toNat = 300 from rfl]
    rw [decodeV10_single_box outSwap cfgV10pinned 300 (by norm_num)]
    rw [if_neg (show ¬ outSwap 4 < cfgV10pinned.conf_threshold by
      norm_num [outSwap, cfgV10pinned, cfgV10auto])]
    norm_num [outSwap, truncQ, cfgV10pinned, cfgV10auto, Rat.num_ofNat, Rat.den_ofNat]

/-- C1 (amended): no decoder clamps to the input bounds; what does
hold is corner ordering for the V4/V5 and V8 decoders — whenever the
tensor entries (in particular the raw widths/heights) and the input
dimensions are non-negative, every returned detection satisfies
`x1 ≤ x2` and `y1 ≤ y2`.  The V10 decoder copies raw corners
unchanged and guarantees neither ordering nor bounds. -/
theorem C1_corner_order_unclamped :
    ∀ (sig : ℚ → ℚ) (output : ℕ → ℚ) (shape : List ℤ) (num_dims : ℕ)
      (cfg : YoloConfig) (md : ℕ) (dets : List Detection),
      (∀ j, 0 ≤ output j) → 0 ≤ cfg.input_w → 0 ≤ cfg.input_h →
      (decode_yolov4 sig output shape num_dims cfg md = some dets →
        ∀ d ∈ dets, d.x1 ≤ d.x2 ∧ d.y1 ≤ d.y2) ∧
      (decode_yolov8 sig output shape num_dims cfg md = some dets →
        ∀ d ∈ dets, d.x1 ≤ d.x2 ∧ d.y1 ≤ d.y2) :=
  fun _ _ _ _ _ _ _ hout hW hH =>
    ⟨fun h => decode_yolov4_ordered h hout hW hH,
     fun h => decode_yolov8_ordered h hout hW hH⟩

/-- Closed witness for C1's amended theorem at a concrete input. -/
theorem C1_corner_order_unclamped_witness :
    ((∀ j, 0 ≤ outV4half j) ∧ (0:ℤ) ≤ cfgV4one.input_w ∧ (0:ℤ) ≤ cfgV4one.input_h) ∧
    ((decode_yolov4 sigc outV4half [1, 1, 6] 3 cfgV4one 300 =
        some [⟨80, 80, 240, 240, 3/5, 0⟩] →
      ∀ d ∈ [(⟨80, 80, 240, 240, 3/5, 0⟩ : Detection)], d.x1 ≤ d.x2 ∧ d.y1 ≤ d.y2) ∧
     (decode_yolov8 sigc outV4half [1, 1, 6] 3 cfgV4one 300 =
        some [⟨80, 80, 240, 240, 3/5, 0⟩] →
      ∀ d ∈ [(⟨80, 80, 240, 240, 3/5, 0⟩ : Detection)], d.x1 ≤ d.x2 ∧ d.y1 ≤ d.y2)) := by
  have hout : ∀ j, 0 ≤ outV4half j := by
    intro j
    refine getD_nonneg ?_ j
    intro x hx
    simp only [v4rowHalf, List.mem_cons, List.not_mem_nil, or_false] at hx
    rcases hx with rfl | rfl | rfl | rfl | rfl | rfl <;> norm_num
  exact ⟨⟨hout, by norm_num [cfgV4one], by norm_num [cfgV4one]⟩,
    C1_corner_order_unclamped sigc outV4half [1, 1, 6] 3 cfgV4one 300
      [⟨80, 80, 240, 240, 3/5, 0⟩] hout (by norm_num [cfgV4one]) (by norm_num [cfgV4one])⟩

/-- `yolo_decode` when the resolved version is `Auto` (undetermined):
the `default` switch arm runs the V5/V4 decoder and the normal
NMS-and-truncate pipeline — it does not fail. -/
theorem yolo_decode_auto_pipeline (sig : ℚ → ℚ) (output : ℕ → ℚ) (shape : List ℤ)
    (num_dims : ℕ) (cfg : YoloConfig) (max_dets : ℤ)
    (hver : resolvedVersion shape num_dims cfg = .auto) (hmd : 0 < max_dets) :
    yolo_decode sig output shape num_dims cfg max_dets =
      (decode_yolov4 sig output shape num_dims cfg max_dets.toNat).map
        (fun dets => if dets.isEmpty then []
          else if cfg.max_detections < ((yolo_nms dets cfg.nms_threshold).length : ℤ)
          then (yolo_nms dets cfg.nms_threshold).take cfg.max_detections.toNat
          else yolo_nms dets cfg.nms_threshold) := by
  rw [yolo_decode, if_neg (not_le.mpr hmd), hver,
    show decode_yolov4 sig output shape num_dims cfg max_dets.toNat =
      decode_yolov5 sig output shape num_dims cfg max_dets.toNat from rfl]
  cases hdec : decode_yolov5 sig output shape num_dims cfg max_dets.toNat with
  | none => rfl
  | some dets =>
    cases dets with
    | nil => rfl
    | cons d rest => rfl

/-- The configuration of the undetermined-format counterexample: Auto
version, one class. -/
def cfgAutoFall : YoloConfig := { cfgV4one with version := .auto }

/-- C3 (amended): when the configured version is Auto and the format
detector cannot classify the shape, `yolo_decode` does NOT fail; the
`default` switch arm decodes with the V5 decoder, so the result equals
decoding with the version forced to V5. -/
theorem C3_auto_fallback :
    ∀ (sig : ℚ → ℚ) (output : ℕ → ℚ) (shape : List ℤ) (num_dims : ℕ)
      (cfg : YoloConfig) (max_dets : ℤ),
      cfg.version = .auto →
      yolo_detect_version shape num_dims cfg.num_classes = .auto →
      yolo_decode sig output shape num_dims cfg max_dets =
        yolo_decode sig output shape num_dims { cfg with version := .v5 } max_dets := by
  intro sig output shape num_dims cfg max_dets hcfg hdet
  have h1 : resolvedVersion shape num_dims cfg = .auto := by
    rw [show resolvedVersion shape num_dims cfg =
      (if cfg.version = .auto then yolo_detect_version shape num_dims cfg.num_classes
       else cfg.version) from rfl, hcfg, if_pos rfl]
    exact hdet
  have h2 : resolvedVersion shape num_dims { cfg with version := .v5 } = .v5 := rfl
  rw [yolo_decode, yolo_decode, h1, h2]
  rfl

/-- C3 (counterexample): on the `[1,1,6]` shape (which the detector
cannot classify) with version Auto, `yolo_decode` returns one
detection — not the claimed `-1`/empty failure. -/
theorem C3_counterexample :
    cfgAutoFall.version = .auto ∧
    yolo_detect_version [1, 1, 6] 3 cfgAutoFall.num_classes = .auto ∧
    yolo_decode sigc outV4half [1, 1, 6] 3 cfgAutoFall 300 =
      some [⟨80, 80, 240, 240, 3/5, 0⟩] ∧
    ¬ (yolo_decode sigc outV4half [1, 1, 6] 3 cfgAutoFall 300 = none ∨
       yolo_decode sigc outV4half [1, 1, 6] 3 cfgAutoFall 300 = some []) := by
  have hdec : decode_yolov4 sigc outV4half [1, 1, 6] 3 cfgAutoFall 300 =
      some [⟨80, 80, 240, 240, 3/5, 0⟩] := by
    rw [decodeV4_scale_condition sigc outV4half cfgAutoFall 300 (by norm_num) rfl
      (by norm_num [outV4half, v4rowHalf]) (by norm_num [outV4half, v4rowHalf])
      (by norm_num [outV4half, v4rowHalf]) (by norm_num [outV4half, v4rowHalf])
      (by norm_num [outV4half, v4rowHalf, cfgAutoFall, cfgV4one])
      (by norm_num [outV4half, v4rowHalf, cfgAutoFall, cfgV4one])]
    rw [if_pos (by norm_num [outV4half, v4rowHalf] :
      outV4half 0 ≤ 1 ∧ outV4half 1 ≤ 1 ∧ outV4half 2 ≤ 1 ∧ outV4half 3 ≤ 1)]
    norm_num [outV4half, v4rowHalf, cfgAutoFall, cfgV4one]
  have heval : yolo_decode sigc outV4half [1, 1, 6] 3 cfgAutoFall 300 =
      some [⟨80, 80, 240, 240, 3/5, 0⟩] := by
    rw [yolo_decode_auto_pipeline sigc outV4half [1, 1, 6] 3 cfgAutoFall 300 rfl
      (by norm_num)]
    rw [show ((300:ℤ)).toNat = 300 from rfl, hdec]
    have hnms : yolo_nms [(⟨80, 80, 240, 240, 3/5, 0⟩ : Detection)]
        cfgAutoFall.nms_threshold = [(⟨80, 80, 240, 240, 3/5, 0⟩ : Detection)] := by
      rw [yolo_nms]
      rw [show sortDesc [(⟨80, 80, 240, 240, 3/5, 0⟩ : Detection)] =
        [(⟨80, 80, 240, 240, 3/5, 0⟩ : Detection)] from rfl]
      rw [show ([(⟨80, 80, 240, 240, 3/5, 0⟩ : Detection)] : List Detection).length = 1
        from rfl]
      rw [greedy, if_neg (by norm_num)]
      rfl
    rw [Option.map_some']
    rw [show ([(⟨80, 80, 240, 240, 3/5, 0⟩ : Detection)] : List Detection).isEmpty = false
      from rfl]
    simp only [Bool.false_eq_true, if_false, hnms]
    norm_num [cfgAutoFall, cfgV4one]
  refine ⟨rfl, rfl, heval, ?_⟩
  rw [heval]
  rintro (h | h)
  · exact Option.noConfusion h
  · exact List.noConfusion (Option.some.inj h)

/-- Closed witness for C3's amended theorem at the concrete
undetectable shape. -/
theorem C3_auto_fallback_witness :
    (cfgAutoFall.version = .auto ∧
     yolo_detect_version [1, 1, 6] 3 cfgAutoFall.num_classes = .auto) ∧
    yolo_decode sigc outV4half [1, 1, 6] 3 cfgAutoFall 300 =
      yolo_decode sigc outV4half [1, 1, 6] 3 { cfgAutoFall with version := .v5 } 300 :=
  ⟨⟨rfl, rfl⟩,
   C3_auto_fallback sigc outV4half [1, 1, 6] 3 cfgAutoFall 300 rfl rfl⟩

/-- Config with one class whose DFL-style V8 tensor would have
`64 + 1 = 65` channels. -/
def cfgDFL : YoloConfig := { cfgV4one with version := .v8 }

/-- A `[1,65,1]` tensor laid out as the DFL sub-encoding would be:
channels 0-63 are the would-be distribution bins (here: 100,100,10,10
in channels 0-3, zeros elsewhere) and channel 64 holds the single
class score 0.9. -/
def outDFL : ℕ → ℚ := fun j =>
  if j = 0 ∨ j = 1 then 100 else if j = 2 ∨ j = 3 then 10 else if j = 64 then 9/10 else 0

/-- An argmax fold step that never fires leaves the accumulator
unchanged. -/
theorem foldl_best_stay (get : ℕ → ℚ) (L : List ℕ) (acc : ℕ × ℚ)
    (h : ∀ c ∈ L, ¬ acc.2 < get (c + 1)) :
    L.foldl (fun a c => if a.2 < get (c + 1) then (c + 1, get (c + 1)) else a) acc = acc := by
  induction L with
  | nil => rfl
  | cons c L ih =>
    rw [List.foldl_cons, if_neg (h c (List.mem_cons_self c L))]
    exact ih (fun e he => h e (List.mem_cons_of_mem c he))

/-- The argmax over the 61 channel scores of `outDFL` lands on the
last channel (class 60) with score 0.9. -/
theorem bestClass_outDFL : bestClass (fun c => outDFL (4 + c)) 61 = (60, 9/10) := by
  rw [bestClass, show (61 - 1 : ℕ) = 60 from rfl, show (60:ℕ) = 59 + 1 from rfl,
    List.range_succ, List.foldl_append]
  rw [foldl_best_stay (fun c => outDFL (4 + c)) (List.range 59) (0, outDFL (4 + 0)) ?stay]
  · rw [List.foldl_cons, List.foldl_nil]
    rw [if_pos (by norm_num [outDFL])]
    norm_num [outDFL]
  case stay =>
    intro c hc
    rw [List.mem_range] at hc
    have h4 : outDFL (4 + 0) = 0 := by norm_num [outDFL]
    have hzero : outDFL (4 + (c + 1)) = 0 := by
      rw [outDFL]
      rw [if_neg (by omega), if_neg (by omega), if_neg (by omega)]
    simp only [h4, hzero]
    norm_num

/-- The V8 row decoder on the DFL-shaped tensor: channels 4..64 are
treated as 61 class scores and channels 0-3 as direct coordinates. -/
theorem decodeRowV8_outDFL :
    decodeRowV8 sigc cfgDFL outDFL 61 = some ⟨95, 95, 105, 105, 9/10, 60⟩ := by
  simp only [decodeRowV8, bestClass_outDFL]
  rw [if_neg (show ¬ ((9:ℚ)/10 < 0 ∨ 1 < (9:ℚ)/10) by norm_num)]
  rw [if_neg (show ¬ ((9:ℚ)/10) < cfgDFL.conf_threshold by
    norm_num [cfgDFL, cfgV4one])]
  rw [if_neg (show ¬ (outDFL 0 ≤ 1 ∧ outDFL 1 ≤ 1 ∧ outDFL 2 ≤ 1 ∧ outDFL 3 ≤ 1) by
    norm_num [outDFL])]
  norm_num [outDFL]

/-- C2 (counterexample): on a tensor whose channel dimension is
`64 + num_classes` (the DFL layout), `decode_yolov8` performs NO DFL
decoding: it treats channels 4..64 as `channels - 4 = 61` class
scores and channels 0-3 as direct `cx,cy,w,h` — the returned
`class_id` 60 is not even a valid class (`num_classes = 1`), and the
corners come from the direct center-size conversion of channels 0-3. -/
theorem C2_counterexample :
    ([1, 65, 1] : List ℤ).getD 1 0 = 64 + cfgDFL.num_classes ∧
    decode_yolov8 sigc outDFL [1, 65, 1] 3 cfgDFL 300 =
      some [⟨95, 95, 105, 105, 9/10, 60⟩] ∧
    ¬ ((60:ℤ) < cfgDFL.num_classes) ∧
    (⟨95, 95, 105, 105, (9:ℚ)/10, 60⟩ : Detection).x1 = outDFL 0 - outDFL 2 * (1/2) := by
  refine ⟨by norm_num [cfgDFL, cfgV4one, List.getD], ?_,
    by norm_num [cfgDFL, cfgV4one], by norm_num [outDFL]⟩
  have hdec : decode_yolov8 sigc outDFL [1, 65, 1] 3 cfgDFL 300 =
      some (((List.range 1).filterMap (fun i =>
        decodeRowV8 sigc cfgDFL (fun k => outDFL (k * 1 + i)) 61)).take 300) := rfl
  rw [hdec, show List.range 1 = [0] from rfl]
  simp only [List.filterMap_cons, List.filterMap_nil, Nat.mul_one, Nat.add_zero]
  rw [decodeRowV8_outDFL]
  rfl

/-- The 16-bin distribution of the DFL test: a single dominant logit
50 at index 5, 0 elsewhere. -/
def oneHot5 : ℕ → ℚ := fun i => if i = 5 then 50 else 0

/-- The running max of `dfl_decode` over `oneHot5` is the dominant
logit 50. -/
theorem dfl_max_oneHot5 :
    (List.range 15).foldl (fun m i => if m < oneHot5 (i + 1) then oneHot5 (i + 1) else m)
      (oneHot5 0) = 50 := by
  norm_num [List.range_succ, oneHot5]

/-- Exact value of `dfl_decode` on `oneHot5` in terms of the
exponential at the two arguments that occur (`0` and `-50`). -/
theorem dfl_decode_oneHot5_val (fexp : ℚ → ℚ) (h0 : fexp 0 = 1) :
    dfl_decode fexp oneHot5 16 = (5 + 115 * fexp (-50)) / (1 + 15 * fexp (-50)) := by
  simp only [dfl_decode]
  rw [show (16 - 1 : ℕ) = 15 from rfl, dfl_max_oneHot5]
  simp only [List.range_succ, List.foldl_append, List.foldl_cons, List.foldl_nil,
    List.range_zero]
  norm_num [oneHot5, h0]
  ring_nf

/-- C2 (amended): `decode_yolov8` contains no DFL sub-encoding at all:
its class-count is `channels - 4` derived from the shape alone (the
configured `num_classes` is ignored, so a `64 + num_classes`-channel
tensor is decoded as a direct-box tensor with `60 + num_classes`
classes, as the counterexample shows).  The separate `dfl_decode`
helper that does exist in the NCNN loader's raw-output path computes
the softmax expectation, and on the one-hot-like 16-bin distribution
with logit 50 at index 5 returns a value within `1e-3` of 5 (assuming
only that `exp 0 = 1` and `0 < exp (-50) ≤ 1/100000`, which hold for
the real exponential). -/
theorem C2_no_dfl_in_v8 :
    (∀ (sig : ℚ → ℚ) (output : ℕ → ℚ) (shape : List ℤ) (num_dims : ℕ)
       (cfg : YoloConfig) (md : ℕ) (nc2 : ℤ),
       decode_yolov8 sig output shape num_dims cfg md =
         decode_yolov8 sig output shape num_dims { cfg with num_classes := nc2 } md) ∧
    (∀ fexp : ℚ → ℚ, fexp 0 = 1 → 0 < fexp (-50) → fexp (-50) ≤ 1/100000 →
       |dfl_decode fexp oneHot5 16 - 5| ≤ 1/1000) := by
  constructor
  · intro sig output shape num_dims cfg md nc2
    rfl
  · intro fexp h0 hq0 hqs
    rw [dfl_decode_oneHot5_val fexp h0]
    have hD : (0:ℚ) < 1 + 15 * fexp (-50) := by linarith
    have heq : (5 + 115 * fexp (-50)) / (1 + 15 * fexp (-50)) - 5 =
        40 * fexp (-50) / (1 + 15 * fexp (-50)) := by
      field_simp
      ring
    have h40 : (0:ℚ) ≤ 40 * fexp (-50) / (1 + 15 * fexp (-50)) :=
      le_of_lt (div_pos (by linarith) hD)
    have hle : 40 * fexp (-50) / (1 + 15 * fexp (-50)) ≤ 40 * fexp (-50) :=
      div_le_self (by linarith) (by linarith)
    calc |(5 + 115 * fexp (-50)) / (1 + 15 * fexp (-50)) - 5|
        = |40 * fexp (-50) / (1 + 15 * fexp (-50))| := by rw [heq]
      _ = 40 * fexp (-50) / (1 + 15 * fexp (-50)) := abs_of_nonneg h40
      _ ≤ 40 * fexp (-50) := hle
      _ ≤ 1/1000 := by linarith

/-- A concrete stand-in for `expf` satisfying the three assumptions of
the DFL bound. -/
def fexpc : ℚ → ℚ := fun x => if x = 0 then 1 else 1/100000

/-- Closed witness for C2's amended theorem at concrete inputs. -/
theorem C2_no_dfl_in_v8_witness :
    (decode_yolov8 sigc outDFL [1, 65, 1] 3 cfgDFL 300 =
       decode_yolov8 sigc outDFL [1, 65, 1] 3 { cfgDFL with num_classes := 80 } 300) ∧
    (fexpc 0 = 1 ∧ (0:ℚ) < fexpc (-50) ∧ fexpc (-50) ≤ 1/100000 ∧
     |dfl_decode fexpc oneHot5 16 - 5| ≤ 1/1000) :=
  ⟨C2_no_dfl_in_v8.1 sigc outDFL [1, 65, 1] 3 cfgDFL 300 80,
   ⟨by norm_num [fexpc], by norm_num [fexpc], by norm_num [fexpc],
    C2_no_dfl_in_v8.2 fexpc (by norm_num [fexpc]) (by norm_num [fexpc])
      (by norm_num [fexpc])⟩⟩
